import Mathlib

/-!
Verification of the Omniscope frontend presentation logic.

This file gives a shallow embedding of the two source components and proves
properties of the embedded definitions:

* `src/frontend/src/app/financial/revenue-tracking/components/Summaries.tsx`
  (`SummaryCard`: sorting, grand totals, cumulative contribution, highlight
  shading, percentage cells), and
* `src/frontend/src/app/components/AllocationCalendar_old.tsx`
  (`AllocationCalendar`: month grid construction, week/column totals, holiday
  matching, the selection-state handlers, available stat types).

Monetary amounts and hours are modelled as rationals (the JS numbers in the
data are finite decimals and the code only adds, subtracts, multiplies and
divides them).  Machine dates are modelled by a civil `year/month/day` record
with JS conventions (0-based months), assuming the UTC timezone for the
holiday-shift computation, as the spec does.
-/

namespace Omniscope

/-! ## Summaries.tsx: data model -/

/-- One row of a summary table, mirroring the element type of
`SummaryCardProps.items`: optional fields of the TS interface become
`Option`s. -/
structure RevenueItem where
  name : String
  slug : Option String
  regular : ℚ
  preContracted : ℚ
  total : ℚ
  consultingFee : Option ℚ
  consultingPreFee : Option ℚ
  handsOnFee : Option ℚ
  squadFee : Option ℚ
deriving DecidableEq, Repr

instance : Inhabited RevenueItem :=
  ⟨⟨"", none, 0, 0, 0, none, none, none, none⟩⟩

/-- The keys of `sortConfig.key` (`keyof items[0]` in the source). -/
inductive SortKey where
  | name
  | slug
  | regular
  | preContracted
  | total
  | consultingFee
  | consultingPreFee
  | handsOnFee
  | squadFee
deriving DecidableEq, Repr

/-- The numeric fields; `name` and `slug` are the two string-valued keys. -/
def SortKey.isNumeric : SortKey → Bool
  | .name => false
  | .slug => false
  | _ => true

/-- The metric the cumulative computation actually uses:
`sortConfig.key === "name" || sortConfig.key === "slug" ? "total" : sortConfig.key`. -/
def effKey (k : SortKey) : SortKey :=
  match k with
  | .name => .total
  | .slug => .total
  | k => k

/-- Numeric value of a field, with missing fee fields read as `0`
(the `?? 0` in the source).  For the two string keys (never used as an
effective metric) we return `0`. -/
def numVal (k : SortKey) (it : RevenueItem) : ℚ :=
  match k with
  | .name => 0
  | .slug => 0
  | .regular => it.regular
  | .preContracted => it.preContracted
  | .total => it.total
  | .consultingFee => it.consultingFee.getD 0
  | .consultingPreFee => it.consultingPreFee.getD 0
  | .handsOnFee => it.handsOnFee.getD 0
  | .squadFee => it.squadFee.getD 0

/-! ### The JS comparator and sort

`[...items].sort((a, b) => ...)` uses the ECMAScript abstract relational
comparison on `a[key] ?? 0` / `b[key] ?? 0`.  For the numeric keys both
operands are numbers.  For `name` both are strings; for `slug` a missing slug
becomes the number `0`, and a string/number comparison first converts the
string with `ToNumber` (a non-numeric string yields NaN, which makes both
`<` comparisons false). -/

/-- A JS primitive value as it appears in the comparator. -/
inductive JsVal where
  | num (q : ℚ)
  | str (s : String)
deriving DecidableEq, Repr

/-- Digits of a decimal string, as a natural number; `none` when the list is
empty or contains a non-digit. -/
def parseDigits : List Char → Option ℕ
  | [] => none
  | cs =>
    cs.foldl
      (fun acc c =>
        match acc with
        | none => none
        | some n => if c.isDigit then some (n * 10 + (c.toNat - '0'.toNat)) else none)
      (some 0)

/-- JS `ToNumber` on a string, restricted to the shapes that occur here:
after trimming, the empty string is `0`, an optionally signed decimal literal
is its value, and everything else is NaN (`none`).  Hex/exponent literals are
not modelled. -/
def jsStrToNum (s : String) : Option ℚ :=
  let t := s.trim
  if t = "" then some 0
  else
    let (sgn, body) : ℚ × List Char :=
      match t.toList with
      | '-' :: r => (-1, r)
      | '+' :: r => (1, r)
      | l => (1, l)
    let intPart := body.takeWhile Char.isDigit
    let rest := body.dropWhile Char.isDigit
    match rest with
    | [] =>
      match parseDigits intPart with
      | some n => some (sgn * n)
      | none => none
    | '.' :: fracPart =>
      if fracPart.all Char.isDigit ∧ (intPart ≠ [] ∨ fracPart ≠ []) then
        let ip : ℚ := ((parseDigits intPart).getD 0 : ℕ)
        let fp : ℚ := ((parseDigits fracPart).getD 0 : ℕ)
        some (sgn * (ip + fp / (10 ^ fracPart.length)))
      else none
    | _ => none

/-- The ECMAScript abstract relational comparison `x < y` on primitives,
returning `false` on NaN. -/
def jsLtB : JsVal → JsVal → Bool
  | .num a, .num b => decide (a < b)
  | .str a, .str b => decide (a < b)
  | .num a, .str b =>
    match jsStrToNum b with
    | some q => decide (a < q)
    | none => false
  | .str a, .num b =>
    match jsStrToNum a with
    | some q => decide (q < b)
    | none => false

/-- The value `a[sortConfig.key] ?? 0` used by the comparator. -/
def jsKeyVal (k : SortKey) (it : RevenueItem) : JsVal :=
  match k with
  | .name => .str it.name
  | .slug =>
    match it.slug with
    | some s => .str s
    | none => .num 0
  | k => .num (numVal k it)

/-- The comparator of `sortedItems`:
`if (aValue < bValue) return 1; if (aValue > bValue) return -1; return 0;`. -/
def jsCompare (k : SortKey) (a b : RevenueItem) : Int :=
  if jsLtB (jsKeyVal k a) (jsKeyVal k b) then 1
  else if jsLtB (jsKeyVal k b) (jsKeyVal k a) then -1
  else 0

/-- Stable insertion of `x` into an already-sorted list: `x` goes in front of
the first element `y` with `c x y ≤ 0`.  Elements equal under the comparator
that were inserted earlier (and thus sit later in the original array) end up
after `x`. -/
def insertSorted (c : α → α → Int) (x : α) : List α → List α
  | [] => [x]
  | y :: ys => if c x y ≤ 0 then x :: y :: ys else y :: insertSorted c x ys

/-- A stable sort by a JS comparator.  ECMAScript `Array.prototype.sort` is
required to be stable, and for a consistent comparator the stable sorted
permutation is unique, so any stable sorting algorithm is a faithful model. -/
def jsSort (c : α → α → Int) (l : List α) : List α :=
  l.foldr (insertSorted c) []

/-- The `sortedItems` of `SummaryCard`. -/
def sortedItems (k : SortKey) (items : List RevenueItem) : List RevenueItem :=
  jsSort (jsCompare k) items

/-! ### Grand totals -/

/-- The accumulator shape of the `totals` reduce. -/
structure Totals where
  regular : ℚ
  preContracted : ℚ
  total : ℚ
  consultingFee : ℚ
  consultingPreFee : ℚ
  handsOnFee : ℚ
  squadFee : ℚ
deriving DecidableEq, Repr

/-- One step of the `totals` reduce. -/
def totalsStep (acc : Totals) (item : RevenueItem) : Totals :=
  { regular := acc.regular + item.regular
    preContracted := acc.preContracted + item.preContracted
    total := acc.total + item.total
    consultingFee := acc.consultingFee + item.consultingFee.getD 0
    consultingPreFee := acc.consultingPreFee + item.consultingPreFee.getD 0
    handsOnFee := acc.handsOnFee + item.handsOnFee.getD 0
    squadFee := acc.squadFee + item.squadFee.getD 0 }

/-- The `totals` reduce of `SummaryCard`: fieldwise sums over all items,
missing fee fields contributing `0`. -/
def totals (items : List RevenueItem) : Totals :=
  items.foldl totalsStep ⟨0, 0, 0, 0, 0, 0, 0⟩

/-- Reading `totals[key]` for a numeric key. -/
def totalsGet (k : SortKey) (t : Totals) : ℚ :=
  match k with
  | .name => t.total
  | .slug => t.total
  | .regular => t.regular
  | .preContracted => t.preContracted
  | .total => t.total
  | .consultingFee => t.consultingFee
  | .consultingPreFee => t.consultingPreFee
  | .handsOnFee => t.handsOnFee
  | .squadFee => t.squadFee

/-! ### Cumulative contribution -/

/-- The `cumulativeItems` computation: each sorted item is annotated with
`(previousSum + currentValue) / totals[effectiveKey]`, where `previousSum`
sums the effective metric over the sorted items before it. -/
def cumulativeItems (k : SortKey) (items : List RevenueItem) :
    List (RevenueItem × ℚ) :=
  let sorted := sortedItems k items
  let tot := totals items
  sorted.mapIdx (fun index item =>
    let previousSum := (((sorted.take index).map (numVal (effKey k)))).sum
    let currentValue := numVal (effKey k) item
    (item, (previousSum + currentValue) / totalsGet (effKey k) tot))

/-! ### Highlight shading -/

/-- JS `Math.round`: round half toward positive infinity. -/
def jsRound (x : ℚ) : ℤ :=
  ⌊x + 1 / 2⌋

/-- The `getBackgroundColor` helper.  It returns `undefined` (here `none`)
unless the row is significant; otherwise the grey intensity
`Math.round(230 - contribution * 100)` (used for all three RGB channels).
`previousCumulative || 0` coincides with `previousCumulative` on the rational
inputs that occur (the call site already substitutes `0` at index 0). -/
def getBackgroundColor (cumulative previousCumulative : ℚ)
    (isSignificant : Bool) : Option ℤ :=
  if !isSignificant then none
  else
    let contribution := cumulative - previousCumulative
    some (jsRound (230 - contribution * 100))

/-- The highlight threshold `0.8`. -/
def threshold : ℚ := 0.8

/-- `showHighlight = items.length > 10`. -/
def showHighlight (items : List RevenueItem) : Bool :=
  decide (items.length > 10)

/-- The `backgroundColor` of each rendered row: the call
`getBackgroundColor(item.cumulative, index > 0 ? cumulativeItems[index-1].cumulative : 0,
showHighlight && item.cumulative <= threshold)`. -/
def rowBackgrounds (k : SortKey) (items : List RevenueItem) : List (Option ℤ) :=
  let cum := cumulativeItems k items
  cum.mapIdx (fun index item =>
    getBackgroundColor item.2
      (if index > 0 then ((cum.getD (index - 1) default).2) else 0)
      (showHighlight items && decide (item.2 ≤ threshold)))

/-! ### Percentage cells

The consulting-fee cell of a data row renders two small percentages:
a row percentage `formatPercent(item.consultingFee ?? 0, item.total)` and a
column percentage `formatPercent(item.consultingFee ?? 0, totals.consultingFee)`,
each guarded by `(item.consultingFee ?? 0) !== 0`.  `formatPercent` itself
performs `value / total` with no check of the denominator, so we model a
rendered percentage by the `(value, denominator)` pair handed to
`formatPercent`, and an unrendered one by `none`. -/

/-- The row percentage of the consulting-fee cell (denominator: the row's
`total` field). -/
def consultingRowPercent (it : RevenueItem) : Option (ℚ × ℚ) :=
  if it.consultingFee.getD 0 ≠ 0 then some (it.consultingFee.getD 0, it.total)
  else none

/-- The column percentage of the consulting-fee cell (denominator: the grand
total of the consulting-fee column). -/
def consultingColumnPercent (items : List RevenueItem) (it : RevenueItem) :
    Option (ℚ × ℚ) :=
  if it.consultingFee.getD 0 ≠ 0 then
    some (it.consultingFee.getD 0, (totals items).consultingFee)
  else none

/-! ## Helper lemmas about the stable sort -/

theorem insertSorted_perm (c : α → α → Int) (x : α) :
    ∀ l : List α, (insertSorted c x l).Perm (x :: l)
  | [] => List.Perm.refl _
  | y :: ys => by
    unfold insertSorted
    split
    · exact List.Perm.refl _
    · exact ((insertSorted_perm c x ys).cons y).trans (List.Perm.swap x y ys)

theorem jsSort_perm (c : α → α → Int) : ∀ l : List α, (jsSort c l).Perm l
  | [] => List.Perm.refl _
  | x :: xs =>
    (insertSorted_perm c x (jsSort c xs)).trans ((jsSort_perm c xs).cons x)

theorem mem_insertSorted {c : α → α → Int} {x z : α} {l : List α} :
    z ∈ insertSorted c x l ↔ z = x ∨ z ∈ l := by
  rw [(insertSorted_perm c x l).mem_iff, List.mem_cons]

theorem insertSorted_pairwise {val : α → ℚ} {c : α → α → Int}
    (hc : ∀ a b, c a b ≤ 0 ↔ val b ≤ val a) (x : α) :
    ∀ l : List α, l.Pairwise (fun a b => val b ≤ val a) →
      (insertSorted c x l).Pairwise (fun a b => val b ≤ val a)
  | [], _ => by simp [insertSorted]
  | y :: ys, h => by
    rw [List.pairwise_cons] at h
    obtain ⟨hy, hys⟩ := h
    unfold insertSorted
    split
    case isTrue hxy =>
      rw [hc] at hxy
      refine List.Pairwise.cons ?_ (List.Pairwise.cons hy hys)
      intro z hz
      rcases List.mem_cons.mp hz with rfl | hz
      · exact hxy
      · exact le_trans (hy z hz) hxy
    case isFalse hxy =>
      have hxy' : val x ≤ val y := by
        rw [hc, not_le] at hxy
        exact le_of_lt hxy
      refine List.Pairwise.cons ?_ (insertSorted_pairwise hc x ys hys)
      intro z hz
      rcases mem_insertSorted.mp hz with rfl | hz
      · exact hxy'
      · exact hy z hz

theorem jsSort_pairwise {val : α → ℚ} {c : α → α → Int}
    (hc : ∀ a b, c a b ≤ 0 ↔ val b ≤ val a) :
    ∀ l : List α, (jsSort c l).Pairwise (fun a b => val b ≤ val a)
  | [] => List.Pairwise.nil
  | x :: xs => insertSorted_pairwise hc x (jsSort c xs) (jsSort_pairwise hc xs)

theorem insertSorted_filter {val : α → ℚ} {c : α → α → Int}
    (hc : ∀ a b, c a b ≤ 0 ↔ val b ≤ val a) (x : α) (v : ℚ) :
    ∀ l : List α,
      (insertSorted c x l).filter (fun a => decide (val a = v)) =
        if val x = v then x :: l.filter (fun a => decide (val a = v))
        else l.filter (fun a => decide (val a = v))
  | [] => by
    by_cases h : val x = v <;> simp [insertSorted, h]
  | y :: ys => by
    unfold insertSorted
    split
    case isTrue hxy =>
      by_cases h : val x = v <;> simp [List.filter_cons, h]
    case isFalse hxy =>
      have hlt : val x < val y := by
        rw [hc, not_le] at hxy
        exact hxy
      have ih := insertSorted_filter hc x v ys
      by_cases hyv : val y = v
      · have hxv : val x ≠ v := by
          rw [← hyv]
          exact ne_of_lt hlt
        simp [List.filter_cons, hyv, hxv, ih]
      · by_cases hxv : val x = v <;> simp [List.filter_cons, hyv, hxv, ih]

theorem jsSort_filter {val : α → ℚ} {c : α → α → Int}
    (hc : ∀ a b, c a b ≤ 0 ↔ val b ≤ val a) (v : ℚ) :
    ∀ l : List α,
      (jsSort c l).filter (fun a => decide (val a = v)) =
        l.filter (fun a => decide (val a = v))
  | [] => rfl
  | x :: xs => by
    have step : jsSort c (x :: xs) = insertSorted c x (jsSort c xs) := rfl
    rw [step, insertSorted_filter hc x v (jsSort c xs), jsSort_filter hc v xs]
    by_cases h : val x = v <;> simp [List.filter_cons, h]

/-- For a numeric sort key, the JS comparator is non-positive exactly when the
second item's key value is at most the first item's. -/
theorem jsCompare_le_iff {k : SortKey} (hk : k.isNumeric = true)
    (a b : RevenueItem) :
    jsCompare k a b ≤ 0 ↔ numVal k b ≤ numVal k a := by
  have h : jsCompare k a b =
      if numVal k a < numVal k b then 1
      else if numVal k b < numVal k a then -1 else 0 := by
    cases k <;> simp [jsCompare, jsKeyVal, jsLtB, SortKey.isNumeric] at hk ⊢
  rw [h]
  split_ifs with h1 h2
  · constructor
    · intro hcon
      omega
    · intro hba
      exact absurd h1 (not_lt.mpr hba)
  · constructor
    · intro _
      exact le_of_lt h2
    · intro _
      omega
  · constructor
    · intro _
      exact le_of_not_lt h1
    · intro _
      omega

/-! ## Helper lemmas about grand totals -/

theorem totals_foldl (l : List RevenueItem) : ∀ acc : Totals,
    l.foldl totalsStep acc =
      ⟨acc.regular + (l.map (·.regular)).sum,
       acc.preContracted + (l.map (·.preContracted)).sum,
       acc.total + (l.map (·.total)).sum,
       acc.consultingFee + (l.map (fun it => it.consultingFee.getD 0)).sum,
       acc.consultingPreFee + (l.map (fun it => it.consultingPreFee.getD 0)).sum,
       acc.handsOnFee + (l.map (fun it => it.handsOnFee.getD 0)).sum,
       acc.squadFee + (l.map (fun it => it.squadFee.getD 0)).sum⟩ := by
  induction l with
  | nil => intro acc; simp
  | cons x xs ih =>
    intro acc
    rw [List.foldl_cons, ih]
    simp [totalsStep, add_assoc]

theorem totals_eq (items : List RevenueItem) :
    totals items =
      ⟨(items.map (·.regular)).sum,
       (items.map (·.preContracted)).sum,
       (items.map (·.total)).sum,
       (items.map (fun it => it.consultingFee.getD 0)).sum,
       (items.map (fun it => it.consultingPreFee.getD 0)).sum,
       (items.map (fun it => it.handsOnFee.getD 0)).sum,
       (items.map (fun it => it.squadFee.getD 0)).sum⟩ := by
  rw [totals, totals_foldl]
  simp

theorem totalsGet_eff_eq_sum (k : SortKey) (items : List RevenueItem) :
    totalsGet (effKey k) (totals items) = (items.map (numVal (effKey k))).sum := by
  cases k <;> simp only [totals_eq, totalsGet, effKey] <;> rfl

/-! ## Claim C7 -/

/-- C7: for every item list and every numeric sortKey, the sorted sequence
produced by `SummaryCard` is non-increasing in that key's value (a missing
field counted as 0), and items with equal key values keep their relative
order from the input (stable sort): filtering the sorted list to any key
value yields exactly the input's items with that value, in input order. -/
theorem claim_C7_sort_stable (items : List RevenueItem) (k : SortKey)
    (hk : k.isNumeric = true) :
    (sortedItems k items).Pairwise (fun a b => numVal k b ≤ numVal k a)
    ∧ ∀ v : ℚ,
        (sortedItems k items).filter (fun it => decide (numVal k it = v)) =
          items.filter (fun it => decide (numVal k it = v)) := by
  constructor
  · exact jsSort_pairwise (fun a b => jsCompare_le_iff hk a b) items
  · intro v
    exact jsSort_filter (fun a b => jsCompare_le_iff hk a b) v items

/-- A three-item list with a tie on `total` (5, 7, 5). -/
def c7Items : List RevenueItem :=
  [⟨"x", none, 0, 0, 5, none, none, none, none⟩,
   ⟨"y", none, 0, 0, 7, none, none, none, none⟩,
   ⟨"z", none, 0, 0, 5, none, none, none, none⟩]

/-- Witness for C7 at a concrete input with a tie. -/
theorem claim_C7_sort_stable_witness :
    (sortedItems .total c7Items).Pairwise
        (fun a b => numVal .total b ≤ numVal .total a)
    ∧ (sortedItems .total c7Items).filter
          (fun it => decide (numVal .total it = 5)) =
        c7Items.filter (fun it => decide (numVal .total it = 5)) := by
  have h := claim_C7_sort_stable c7Items .total (by decide)
  exact ⟨h.1, h.2 5⟩

/-! ## Claim C1 -/

/-- C1: for every item list and every sortKey, the cumulative value annotated
on the item at sorted position `i` equals the sum of the effective-metric
values of sorted items `0..i` divided by the grand total of the effective
metric (the effective metric being `total` when the sortKey is `name` or
`slug`, and the sortKey itself otherwise, missing values counted as 0); and
for every non-empty list whose effective-metric grand total is nonzero, the
last item's cumulative value is exactly 1 (so the deltas between consecutive
cumulative values telescope to 1). -/
theorem claim_C1_cumulative (items : List RevenueItem) (k : SortKey) :
    (∀ i (hi : i < (cumulativeItems k items).length),
        ((cumulativeItems k items).get ⟨i, hi⟩).2 =
          (((sortedItems k items).take (i + 1)).map (numVal (effKey k))).sum /
            totalsGet (effKey k) (totals items))
    ∧ (items ≠ [] → totalsGet (effKey k) (totals items) ≠ 0 →
        ((cumulativeItems k items).map Prod.snd).getLast? = some 1) := by
  have hlen : (cumulativeItems k items).length = (sortedItems k items).length := by
    simp [cumulativeItems, List.length_mapIdx]
  have hget : ∀ i (hi : i < (cumulativeItems k items).length),
      ((cumulativeItems k items).get ⟨i, hi⟩).2 =
        (((sortedItems k items).take (i + 1)).map (numVal (effKey k))).sum /
          totalsGet (effKey k) (totals items) := by
    intro i hi
    have hi' : i < (sortedItems k items).length := hlen ▸ hi
    have hmap : i < ((sortedItems k items).map (numVal (effKey k))).length := by
      simpa using hi'
    have key := List.get_mapIdx (sortedItems k items)
      (fun index item =>
        (item,
          ((((sortedItems k items).take index).map (numVal (effKey k))).sum +
              numVal (effKey k) item) /
            totalsGet (effKey k) (totals items))) i hi'
    have e1 : (cumulativeItems k items).get ⟨i, hi⟩ =
        ((sortedItems k items).mapIdx (fun index item =>
          (item,
            ((((sortedItems k items).take index).map (numVal (effKey k))).sum +
                numVal (effKey k) item) /
              totalsGet (effKey k) (totals items)))).get
          ⟨i, hi'.trans_le (List.length_mapIdx).ge⟩ := rfl
    rw [e1, key]
    have hsum : (((sortedItems k items).take (i + 1)).map (numVal (effKey k))).sum =
        (((sortedItems k items).take i).map (numVal (effKey k))).sum +
          numVal (effKey k) ((sortedItems k items).get ⟨i, hi'⟩) := by
      rw [List.map_take, List.map_take, List.sum_take_succ _ i hmap]
      simp
    rw [hsum]
  refine ⟨hget, ?_⟩
  intro hne hT
  have hperm := jsSort_perm (jsCompare k) items
  have hslen : (sortedItems k items).length = items.length := hperm.length_eq
  have hpos : 0 < (cumulativeItems k items).length := by
    rw [hlen, hslen]
    exact List.length_pos.mpr hne
  have hlast : (cumulativeItems k items).length - 1 <
      (cumulativeItems k items).length := by omega
  have hval := hget ((cumulativeItems k items).length - 1) hlast
  have htake : (sortedItems k items).take
        ((cumulativeItems k items).length - 1 + 1) = sortedItems k items := by
    apply List.take_of_length_le
    omega
  rw [htake] at hval
  have hsorted_sum : ((sortedItems k items).map (numVal (effKey k))).sum =
      (items.map (numVal (effKey k))).sum :=
    (hperm.map (numVal (effKey k))).sum_eq
  rw [hsorted_sum, ← totalsGet_eff_eq_sum, div_self hT] at hval
  have hlasteq : ((cumulativeItems k items).map Prod.snd).getLast? =
      some (((cumulativeItems k items).get
        ⟨(cumulativeItems k items).length - 1, hlast⟩).2) := by
    rw [List.getLast?_eq_getElem?]
    simp [List.getElem?_eq_getElem hlast, List.get_eq_getElem]
  rw [hlasteq, hval]

/-- Witness items for C1: the spec's own example
`[{name:"A", total:100, consultingFee:100}, {name:"B", total:50, handsOnFee:50}]`. -/
def c1Items : List RevenueItem :=
  [⟨"A", none, 0, 0, 100, some 100, none, none, none⟩,
   ⟨"B", none, 0, 0, 50, none, none, some 50, none⟩]

/-- Witness for C1: on the concrete two-item list sorted by `total`, the last
cumulative value is 1 and the first equals 100/150 = 2/3. -/
theorem claim_C1_cumulative_witness :
    ((cumulativeItems .total c1Items).map Prod.snd).getLast? = some 1
    ∧ ((cumulativeItems .total c1Items).get
        ⟨0, by decide⟩).2 =
      (((sortedItems .total c1Items).take 1).map (numVal (effKey .total))).sum /
        totalsGet (effKey .total) (totals c1Items) := by
  have h := claim_C1_cumulative c1Items .total
  exact ⟨h.2 (by decide) (by with_unfolding_all decide), h.1 0 (by decide)⟩

/-! ## Claim C6 -/

/-- An item whose `total` field is zero while its consulting fee is 100:
the row-percentage guard in the source checks the numerator, not the
denominator, so `formatPercent(100, 0)` is rendered for it. -/
def c6Item : RevenueItem := ⟨"A", none, 0, 0, 0, some 100, none, none, none⟩

/-- C6 counterexample: for `c6Item` the denominator of the consulting-fee row
percentage (the row's `total`) is zero, yet a percentage is rendered: the
claim "no percentage is rendered whenever the total used as denominator is
zero" fails on the code. -/
theorem claim_C6_counterexample :
    c6Item.total = 0 ∧ consultingRowPercent c6Item = some (100, 0) := by
  exact ⟨rfl, by decide⟩

/-- C6 amended: a percentage cell is guarded by its *numerator*, not its
denominator: nothing is rendered when the cell's value is zero, and a
rendered percentage always has a nonzero numerator, but its denominator may
be zero (the row's `total` field is independent of the fee).  For the
column percentage, when all consulting fees are non-negative the rendered
denominator (the column's grand total) is in fact positive. -/
theorem claim_C6_amended (items : List RevenueItem) (it : RevenueItem)
    (v d : ℚ) :
    (it.consultingFee.getD 0 = 0 →
      consultingRowPercent it = none ∧ consultingColumnPercent items it = none)
    ∧ (consultingRowPercent it = some (v, d) →
        v = it.consultingFee.getD 0 ∧ v ≠ 0 ∧ d = it.total)
    ∧ (it ∈ items → (∀ j ∈ items, 0 ≤ j.consultingFee.getD 0) →
        consultingColumnPercent items it = some (v, d) → 0 < d) := by
  refine ⟨?_, ?_, ?_⟩
  · intro h0
    constructor <;> simp [consultingRowPercent, consultingColumnPercent, h0]
  · intro h
    rw [consultingRowPercent] at h
    by_cases hz : it.consultingFee.getD 0 = 0
    · simp [hz] at h
    · simp only [hz, if_true, ne_eq, not_false_eq_true, ite_true] at h
      obtain ⟨hv, hd⟩ := Prod.mk.injEq .. ▸ Option.some.injEq .. ▸ h
      exact ⟨hv.symm, hv ▸ hz, hd.symm⟩
  · intro hmem hnn h
    rw [consultingColumnPercent] at h
    by_cases hz : it.consultingFee.getD 0 = 0
    · simp [hz] at h
    · simp only [hz, ne_eq, not_false_eq_true, ite_true] at h
      obtain ⟨hv, hd⟩ := Prod.mk.injEq .. ▸ Option.some.injEq .. ▸ h
      have hfee : 0 < it.consultingFee.getD 0 :=
        lt_of_le_of_ne (hnn it hmem) (Ne.symm hz)
      have hsum : it.consultingFee.getD 0 ≤
          ((items.map (fun j => j.consultingFee.getD 0)).sum) := by
        apply List.single_le_sum
        · intro x hx
          obtain ⟨j, hj, rfl⟩ := List.mem_map.mp hx
          exact hnn j hj
        · exact List.mem_map_of_mem _ hmem
      have hcol : (totals items).consultingFee =
          (items.map (fun j => j.consultingFee.getD 0)).sum := by
        rw [totals_eq]
      rw [← hd, hcol]
      exact lt_of_lt_of_le hfee hsum

/-- A single item with consulting fee 5 and total 5. -/
def c6wItem : RevenueItem := ⟨"W", none, 0, 0, 5, some 5, none, none, none⟩

/-- Witness for the amended C6 at a concrete one-item list. -/
theorem claim_C6_amended_witness :
    ((5 : ℚ) = c6wItem.consultingFee.getD 0 ∧ (5 : ℚ) ≠ 0 ∧ (5 : ℚ) = c6wItem.total)
    ∧ (0 : ℚ) < 5 := by
  have h := claim_C6_amended [c6wItem] c6wItem 5 5
  exact ⟨h.2.1 (by decide),
    h.2.2 (by decide) (by decide) (by with_unfolding_all decide)⟩

/-! ## Claim C8 -/

/-- The cumulative fraction at sorted position `i` (0 when out of range). -/
def cumAt (k : SortKey) (items : List RevenueItem) (i : ℕ) : ℚ :=
  ((cumulativeItems k items).getD i default).2

/-- Eleven identical items with `total = 3` each: the first row's marginal
contribution is 1/11, whose exact intensity 230 − 100/11 is not an
integer. -/
def c8Items : List RevenueItem :=
  List.replicate 11 ⟨"x", none, 0, 0, 3, none, none, none, none⟩

/-- C8 counterexample: with 11 equal items, the code renders the first row
with intensity `Math.round(230 - (1/11)*100) = 221`, which differs from the
exact value `230 - 100×(1/11)` asserted by the claim (the claim omits the
rounding). -/
theorem claim_C8_counterexample :
    (rowBackgrounds .total c8Items).getD 0 none = some 221
    ∧ cumAt .total c8Items 0 = 1 / 11
    ∧ (230 : ℚ) - (1 / 11 - 0) * 100 ≠ (221 : ℚ) := by
  refine ⟨by with_unfolding_all decide, by with_unfolding_all decide, by norm_num⟩

/-- Unfolding `rowBackgrounds` at an in-range index. -/
theorem rowBackgrounds_getD (k : SortKey) (items : List RevenueItem) (i : ℕ)
    (hi : i < (cumulativeItems k items).length) :
    (rowBackgrounds k items).getD i none =
      getBackgroundColor (cumAt k items i)
        (if 0 < i then cumAt k items (i - 1) else 0)
        (showHighlight items && decide (cumAt k items i ≤ threshold)) := by
  have key := List.get_mapIdx (cumulativeItems k items)
    (fun index item =>
      getBackgroundColor item.2
        (if index > 0 then (((cumulativeItems k items).getD (index - 1) default).2) else 0)
        (showHighlight items && decide (item.2 ≤ threshold))) i hi
  have hlen : i < (rowBackgrounds k items).length := by
    simpa [rowBackgrounds, List.length_mapIdx] using hi
  have e1 : (rowBackgrounds k items).getD i none =
      (rowBackgrounds k items).get ⟨i, hlen⟩ := by
    rw [List.getD_eq_getElem?_getD, List.getElem?_eq_getElem hlen]
    rfl
  have e2 : (rowBackgrounds k items).get ⟨i, hlen⟩ =
      ((cumulativeItems k items).mapIdx (fun index item =>
        getBackgroundColor item.2
          (if index > 0 then (((cumulativeItems k items).getD (index - 1) default).2) else 0)
          (showHighlight items && decide (item.2 ≤ threshold)))).get
        ⟨i, hi.trans_le (List.length_mapIdx).ge⟩ := rfl
  rw [e1, e2, key]
  have ecum : ((cumulativeItems k items).get ⟨i, hi⟩).2 = cumAt k items i := by
    rw [cumAt, List.getD_eq_getElem?_getD, List.getElem?_eq_getElem hi]
    rfl
  rw [ecum]
  rcases Nat.eq_zero_or_pos i with h0 | hpos
  · simp [h0]
  · simp [hpos, Nat.pos_iff_ne_zero.mp hpos, cumAt]

/-- C8 amended: with at most 10 items no row is ever shaded; with more than
10 items (and a nonzero effective grand total, so the cumulative fractions
are well defined) a row is shaded exactly when its cumulative fraction is at
most 0.8, and a shaded row's intensity is `230 - 100×contribution` rounded
half-up to the nearest integer, where the contribution is the difference
between the row's cumulative fraction and the previous row's. -/
theorem claim_C8_amended (items : List RevenueItem) (k : SortKey) :
    (items.length ≤ 10 → ∀ b ∈ rowBackgrounds k items, b = none)
    ∧ (items.length > 10 → totalsGet (effKey k) (totals items) ≠ 0 →
        ∀ i, i < (rowBackgrounds k items).length →
          (((rowBackgrounds k items).getD i none).isSome ↔
            cumAt k items i ≤ threshold)
          ∧ (cumAt k items i ≤ threshold →
              (rowBackgrounds k items).getD i none =
                some (jsRound (230 -
                  (cumAt k items i -
                    (if 0 < i then cumAt k items (i - 1) else 0)) * 100)))) := by
  have hlen : (rowBackgrounds k items).length = (cumulativeItems k items).length := by
    simp [rowBackgrounds, List.length_mapIdx]
  constructor
  · intro hle b hb
    obtain ⟨i, hilt, rfl⟩ := List.mem_iff_getElem.mp hb
    have hi : i < (cumulativeItems k items).length := hlen ▸ hilt
    have : (rowBackgrounds k items).getD i none = (rowBackgrounds k items)[i] := by
      rw [List.getD_eq_getElem?_getD, List.getElem?_eq_getElem hilt]
      rfl
    rw [← this, rowBackgrounds_getD k items i hi]
    have hsh : showHighlight items = false := by
      simp [showHighlight]
      omega
    simp [getBackgroundColor, hsh]
  · intro hgt _ i hilt
    have hi : i < (cumulativeItems k items).length := hlen ▸ hilt
    rw [rowBackgrounds_getD k items i hi]
    have hsh : showHighlight items = true := by
      simp [showHighlight]
      omega
    constructor
    · by_cases hc : cumAt k items i ≤ threshold <;>
        simp [getBackgroundColor, hsh, hc]
    · intro hc
      simp [getBackgroundColor, hsh, hc]

/-- Witness for the amended C8 on the eleven-item list, row 0. -/
theorem claim_C8_amended_witness :
    (rowBackgrounds .total c8Items).getD 0 none =
      some (jsRound (230 -
        (cumAt .total c8Items 0 - (if 0 < 0 then cumAt .total c8Items (0 - 1) else 0)) * 100)) := by
  have h := (claim_C8_amended c8Items .total).2 (by decide)
    (by with_unfolding_all decide) 0 (by with_unfolding_all decide)
  exact h.2 (by with_unfolding_all decide)

/-! ## AllocationCalendar_old.tsx: data model -/

/-- The four statistic categories (`StatType` from `constants/colors`),
listed in the key order of the `totalHours` object literal
(`Object.entries` iterates in insertion order). -/
inductive StatType where
  | consulting
  | handsOn
  | squad
  | internal
deriving DecidableEq, Repr

/-- Hours per category (the `hours` object of a cell). -/
structure Hours where
  consulting : ℚ
  handsOn : ℚ
  squad : ℚ
  internal : ℚ
deriving DecidableEq, Repr

/-- Indexing `hours[statType]`. -/
def Hours.get (h : Hours) : StatType → ℚ
  | .consulting => h.consulting
  | .handsOn => h.handsOn
  | .squad => h.squad
  | .internal => h.internal

instance : Add Hours :=
  ⟨fun a b => ⟨a.consulting + b.consulting, a.handsOn + b.handsOn,
    a.squad + b.squad, a.internal + b.internal⟩⟩

instance : Zero Hours := ⟨⟨0, 0, 0, 0⟩⟩

theorem Hours.add_def (a b : Hours) :
    a + b = ⟨a.consulting + b.consulting, a.handsOn + b.handsOn,
      a.squad + b.squad, a.internal + b.internal⟩ := rfl

theorem Hours.zero_def : (0 : Hours) = ⟨0, 0, 0, 0⟩ := rfl

instance : AddCommMonoid Hours where
  add_assoc a b c := by simp [Hours.add_def, add_assoc]
  zero_add a := by cases a; simp [Hours.add_def, Hours.zero_def]
  add_zero a := by cases a; simp [Hours.add_def, Hours.zero_def]
  add_comm a b := by
    simp only [Hours.add_def, Hours.mk.injEq]
    exact ⟨add_comm _ _, add_comm _ _, add_comm _ _, add_comm _ _⟩
  nsmul := nsmulRec

/-- A civil calendar date with JS conventions: `month` is 0-based (0..11).
The source looks dates up by their zero-padded `YYYY-MM-DD` string; two
valid dates format equally exactly when their components are equal, so we
compare the records directly. -/
structure CivilDate where
  year : ℤ
  month : ℤ
  day : ℤ
deriving DecidableEq, Repr

/-- Gregorian leap year. -/
def isLeap (y : ℤ) : Bool :=
  (y % 4 == 0 && y % 100 != 0) || (y % 400 == 0)

/-- Number of days of 0-based month `m` of year `y` (the source computes
this as `new Date(y, m + 1, 0).getDate()`). -/
def daysInMonth (y m : ℤ) : ℤ :=
  if m = 1 then (if isLeap y then 29 else 28)
  else if m = 3 ∨ m = 5 ∨ m = 8 ∨ m = 10 then 30
  else 31

/-- Day number of a civil date (days since 1970-01-01, Howard Hinnant's
`days_from_civil` adapted to 0-based months).  Only used, mod 7, for the
weekday that `Date.prototype.getDay` reports. -/
def daysFromCivil (y m d : ℤ) : ℤ :=
  let yAdj := if m ≤ 1 then y - 1 else y
  let era := yAdj.ediv 400
  let yoe := yAdj - era * 400
  let mp := (m + 10).emod 12
  let doy := (153 * mp + 2).ediv 5 + d - 1
  let doe := yoe * 365 + yoe.ediv 4 - yoe.ediv 100 + doy
  era * 146097 + doe - 719468

/-- `new Date(y, m, 1).getDay()`: weekday (0 = Sunday) of the first of the
month; 1970-01-01 was a Thursday (4). -/
def startingDayOfWeek (y m : ℤ) : ℤ :=
  (daysFromCivil y m 1 + 4).emod 7

/-- The calendar day following `dt` (for valid dates): models adding
`24*60*60*1000` ms to the UTC-midnight `Date` parsed from a stored
`YYYY-MM-DD` string and reading back its date fields. -/
def nextDay (dt : CivilDate) : CivilDate :=
  if dt.day < daysInMonth dt.year dt.month then ⟨dt.year, dt.month, dt.day + 1⟩
  else if dt.month < 11 then ⟨dt.year, dt.month + 1, 1⟩
  else ⟨dt.year + 1, 0, 1⟩

/-- One entry of `timesheet.byDate`; the hour fields are optional as in the
source (`day.totalConsultingHours || 0`). -/
structure TimesheetDay where
  date : CivilDate
  totalConsultingHours : Option ℚ
  totalHandsOnHours : Option ℚ
  totalSquadHours : Option ℚ
  totalInternalHours : Option ℚ
deriving DecidableEq, Repr

/-- One entry of `timesheet.businessCalendar.holidays`. -/
structure Holiday where
  date : CivilDate
  reason : String
deriving DecidableEq, Repr

/-- The timesheet input (the `workingDays` list is not used by any claim). -/
structure Timesheet where
  byDate : List TimesheetDay
  holidays : List Holiday
deriving DecidableEq, Repr

/-- The `totalHours` accumulation over every `byDate` entry (note: over the
whole list, not restricted to the displayed month). -/
def totalHours (ts : Timesheet) : Hours :=
  ts.byDate.foldl
    (fun acc day =>
      ⟨acc.consulting + day.totalConsultingHours.getD 0,
       acc.handsOn + day.totalHandsOnHours.getD 0,
       acc.squad + day.totalSquadHours.getD 0,
       acc.internal + day.totalInternalHours.getD 0⟩)
    ⟨0, 0, 0, 0⟩

/-- `availableStatTypes`: the categories whose `totalHours` entry is
positive, in object-key order. -/
def availableStatTypes (ts : Timesheet) : List StatType :=
  [StatType.consulting, .handsOn, .squad, .internal].filter
    (fun t => decide (0 < (totalHours ts).get t))

/-- The selected stat type after the render-time substitution
`if (!availableStatTypes.includes(selectedStatType) && availableStatTypes.length > 0)
setSelectedStatType(availableStatTypes[0])`. -/
def effectiveStatType (ts : Timesheet) (sel : StatType) : StatType :=
  let avail := availableStatTypes ts
  if sel ∉ avail ∧ avail ≠ [] then avail.headD sel else sel

/-- `getHoursForDate`: look the cell's date up in `byDate` (by its formatted
`YYYY-MM-DD` key); missing entries and missing fields default to zero. -/
def getHoursForDate (ts : Timesheet) (date : CivilDate) : Hours :=
  match ts.byDate.find? (fun d => d.date == date) with
  | some d =>
    ⟨d.totalConsultingHours.getD 0, d.totalHandsOnHours.getD 0,
     d.totalSquadHours.getD 0, d.totalInternalHours.getD 0⟩
  | none => ⟨0, 0, 0, 0⟩

/-- The `isHoliday` helper: finds the first stored holiday whose date,
shifted forward by one calendar day (the `getTime() + 24*60*60*1000`
timezone compensation, taken at UTC), equals the queried date. -/
def isHoliday (ts : Timesheet) (date : CivilDate) : Option Holiday :=
  ts.holidays.find? (fun h => nextDay h.date == date)

/-- Cell kinds of the rendered grid. -/
inductive CellType where
  | prev
  | current
  | next
  | total
deriving DecidableEq, Repr

/-- One grid cell (the `DayData` of the source). -/
structure DayData where
  day : Option ℤ
  type : CellType
  hours : Hours
  isHoliday : Bool
  holidayReason : Option String
deriving DecidableEq, Repr

instance : Inhabited DayData := ⟨⟨none, .current, ⟨0, 0, 0, 0⟩, false, none⟩⟩

/-- Builds a day cell for a given date, as the three `Array.from` builders
do: `day` is the date's day-of-month, hours come from `getHoursForDate`,
and the holiday mark and reason come from `isHoliday`. -/
def mkCell (ts : Timesheet) (ty : CellType) (date : CivilDate) : DayData :=
  { day := some date.day
    type := ty
    hours := getHoursForDate ts date
    isHoliday := (isHoliday ts date).isSome
    holidayReason := (isHoliday ts date).map Holiday.reason }

/-! ### Grid construction -/

/-- Year and 0-based month of the month before `(y, m)`. -/
def prevMonthYear (y m : ℤ) : ℤ × ℤ :=
  if m = 0 then (y - 1, 11) else (y, m - 1)

/-- Year and 0-based month of the month after `(y, m)`. -/
def nextMonthYear (y m : ℤ) : ℤ × ℤ :=
  if m = 11 then (y + 1, 0) else (y, m + 1)

/-- The date `new Date(y, m, -i)`: the `(i+1)`-th-to-last day of the
previous month, i.e. day `daysInMonth(prev) - i`.  The grid only evaluates
this for `i ≤ 5 < 28`, where it is a valid date of the previous month. -/
def prevDate (y m : ℤ) (i : ℕ) : CivilDate :=
  ⟨(prevMonthYear y m).1, (prevMonthYear y m).2,
    daysInMonth (prevMonthYear y m).1 (prevMonthYear y m).2 - (i : ℤ)⟩

/-- The date `new Date(y, m + 1, i + 1)`: day `i+1` of the next month.  The
grid only evaluates this for `i + 1 ≤ 6 < 28`, where it is valid. -/
def nextDate (y m : ℤ) (i : ℕ) : CivilDate :=
  ⟨(nextMonthYear y m).1, (nextMonthYear y m).2, (i : ℤ) + 1⟩

/-- `startingDayOfWeek` as a natural number (it lies in `0..6`). -/
def sNat (y m : ℤ) : ℕ := (startingDayOfWeek y m).toNat

/-- `daysInMonth` as a natural number (it lies in `28..31`). -/
def dimNat (y m : ℤ) : ℕ := (daysInMonth y m).toNat

/-- `weeksNeeded = Math.ceil((startingDayOfWeek + daysInMonth) / 7)`. -/
def weeksNeeded (y m : ℤ) : ℕ := (sNat y m + dimNat y m + 6) / 7

/-- `totalCells = weeksNeeded * 7`. -/
def totalCells (y m : ℤ) : ℕ := weeksNeeded y m * 7

/-- `previousMonthDays`: the trailing days of the previous month, built
backwards from the first of the month and then reversed. -/
def previousMonthDays (ts : Timesheet) (y m : ℤ) : List DayData :=
  ((List.range (sNat y m)).map (fun i => mkCell ts .prev (prevDate y m i))).reverse

/-- `currentMonthDays`: days `1..daysInMonth` of the displayed month. -/
def currentMonthDays (ts : Timesheet) (y m : ℤ) : List DayData :=
  (List.range (dimNat y m)).map
    (fun (i : ℕ) => mkCell ts .current ⟨y, m, (i : ℤ) + 1⟩)

/-- `nextMonthDays`: leading days of the next month filling the remaining
cells. -/
def nextMonthDays (ts : Timesheet) (y m : ℤ) : List DayData :=
  (List.range (totalCells y m - (sNat y m + dimNat y m))).map
    (fun i => mkCell ts .next (nextDate y m i))

/-- `allDays = [...previousMonthDays, ...currentMonthDays, ...nextMonthDays]`. -/
def allDays (ts : Timesheet) (y m : ℤ) : List DayData :=
  previousMonthDays ts y m ++ currentMonthDays ts y m ++ nextMonthDays ts y m

/-- The week-total accumulation: only `current`-type cells contribute. -/
def weekTotalHours (cells : List DayData) : Hours :=
  cells.foldl (fun acc c => if c.type = .current then acc + c.hours else acc)
    ⟨0, 0, 0, 0⟩

/-- The appended week-total cell `{ type: 'total', hours: weekTotal }`
(its other fields are absent in the source). -/
def totalCellOf (cells : List DayData) : DayData :=
  { day := none
    type := .total
    hours := weekTotalHours cells
    isHoliday := false
    holidayReason := none }

/-- The `rows` array: for each week, its 7 day cells of `allDays` followed
by the week-total cell. -/
def rows (ts : Timesheet) (y m : ℤ) : List (List DayData) :=
  (List.range (weeksNeeded y m)).map (fun weekIndex =>
    let weekDays := ((allDays ts y m).drop (weekIndex * 7)).take 7
    weekDays ++ [totalCellOf weekDays])

/-- The `columnTotals` accumulation: eight running totals, to which every
cell of type `current` or `total` of each row contributes. -/
def columnTotals (ts : Timesheet) (y m : ℤ) : List Hours :=
  (rows ts y m).foldl
    (fun acc week =>
      List.zipWith
        (fun tot c =>
          if c.type = .current ∨ c.type = .total then tot + c.hours else tot)
        acc week)
    (List.replicate 8 ⟨0, 0, 0, 0⟩)

/-- The sum of the hours of the `current`-type cells of a cell list (the
specification-side description of a week total). -/
def currentHoursSum (cells : List DayData) : Hours :=
  ((cells.filter (fun c => c.type == CellType.current)).map DayData.hours).sum

/-! ### Date-field normalization and the selection state machine -/

/-- JS month-index normalization of `new Date(y, m, d)`: months are folded
into years. -/
def normYM (y m : ℤ) : ℤ × ℤ :=
  (y + m / 12, m % 12)

/-- Day-index normalization: an out-of-range day is walked month by month.
The fuel bound is generous; every JS `Date` constructed by the component
stays far below it. -/
def normDateAux : ℕ → ℤ → ℤ → ℤ → CivilDate
  | 0, y, m, d => ⟨y, m, d⟩
  | fuel + 1, y, m, d =>
    if d < 1 then
      (if m = 0 then normDateAux fuel (y - 1) 11 (d + daysInMonth (y - 1) 11)
       else normDateAux fuel y (m - 1) (d + daysInMonth y (m - 1)))
    else if daysInMonth y m < d then
      (if m = 11 then normDateAux fuel (y + 1) 0 (d - daysInMonth y 11)
       else normDateAux fuel y (m + 1) (d - daysInMonth y m))
    else ⟨y, m, d⟩

/-- The civil date denoted by `new Date(y, m, d)` (months and day indices
normalized into range). -/
def normDate (y m d : ℤ) : CivilDate :=
  normDateAux (d.natAbs + 64) (normYM y m).1 (normYM y m).2 d

/-- For a month index in `0..11` and a day within the month, `normDate` is
the identity on the fields. -/
theorem normDate_valid (y m d : ℤ) (hm0 : 0 ≤ m) (hm : m < 12)
    (hd1 : 1 ≤ d) (hd : d ≤ daysInMonth y m) :
    normDate y m d = ⟨y, m, d⟩ := by
  have hym : normYM y m = (y, m) := by
    rw [normYM, Int.ediv_eq_zero_of_lt hm0 hm, Int.emod_eq_of_lt hm0 hm]
    simp
  rw [normDate, hym]
  show normDateAux (d.natAbs + 64) y m d = ⟨y, m, d⟩
  have hfuel : d.natAbs + 64 = (d.natAbs + 63) + 1 := by omega
  rw [hfuel, normDateAux]
  rw [if_neg (by omega), if_neg (by omega)]

/-- The component's UI state: the displayed date, the four selection fields
and the selected statistic category. -/
structure CalState where
  selectedDate : CivilDate
  selectedDay : Option ℤ
  selectedRow : Option ℕ
  selectedColumn : Option ℕ
  isAllSelected : Bool
  selectedStatType : StatType
deriving DecidableEq, Repr

/-- `handleDayClick`: updates the displayed date per cell type, then selects
the day and clears the three other selection fields.  (`rowIndex` is unused
by the source handler.) -/
def handleDayClick (s : CalState) (day : ℤ) (ty : CellType) : CalState :=
  let newDate :=
    if ty = .prev then
      let d1 := normDate s.selectedDate.year (s.selectedDate.month - 1)
        s.selectedDate.day
      normDate d1.year d1.month day
    else if ty = .next then
      let d1 := normDate s.selectedDate.year (s.selectedDate.month + 1)
        s.selectedDate.day
      normDate d1.year d1.month day
    else normDate s.selectedDate.year s.selectedDate.month day
  { s with
    selectedDate := newDate
    selectedDay := some day
    selectedRow := none
    selectedColumn := none
    isAllSelected := false }

/-- `handleColumnSelect`: index 7 (the Total header) selects everything;
any other index selects that column.  Either way the remaining fields are
cleared. -/
def handleColumnSelect (s : CalState) (columnIndex : ℕ) : CalState :=
  if columnIndex = 7 then
    { s with
      isAllSelected := true
      selectedColumn := none
      selectedRow := none
      selectedDay := none }
  else
    { s with
      selectedColumn := some columnIndex
      selectedRow := none
      selectedDay := none
      isAllSelected := false }

/-- `handleRowSelect`. -/
def handleRowSelect (s : CalState) (rowIndex : ℕ) : CalState :=
  { s with
    selectedRow := some rowIndex
    selectedColumn := none
    selectedDay := none
    isAllSelected := false }

/-- `handleMonthChange`: `setMonth(getMonth() + increment)` on a copy of the
selected date, plus clearing every selection field. -/
def handleMonthChange (s : CalState) (increment : ℤ) : CalState :=
  { s with
    selectedDate := normDate s.selectedDate.year
      (s.selectedDate.month + increment) s.selectedDate.day
    selectedDay := none
    selectedRow := none
    selectedColumn := none
    isAllSelected := false }

/-- `handleStatTypeChange`. -/
def handleStatTypeChange (s : CalState) (t : StatType) : CalState :=
  { s with
    selectedStatType := t
    selectedDay := none
    selectedRow := none
    selectedColumn := none
    isAllSelected := false }

/-- The UI events that mutate the selection state. -/
inductive SelectionEvent where
  | dayClick (day : ℤ) (ty : CellType) (rowIndex : ℕ)
  | columnSelect (columnIndex : ℕ)
  | rowSelect (rowIndex : ℕ)
  | monthChange (increment : ℤ)
  | statTypeChange (t : StatType)
deriving DecidableEq, Repr

/-- Dispatch of the five handlers. -/
def step (s : CalState) : SelectionEvent → CalState
  | .dayClick day ty _ => handleDayClick s day ty
  | .columnSelect i => handleColumnSelect s i
  | .rowSelect i => handleRowSelect s i
  | .monthChange inc => handleMonthChange s inc
  | .statTypeChange t => handleStatTypeChange s t

/-- Number of active selection fields. -/
def activeCount (s : CalState) : ℕ :=
  (if s.selectedDay.isSome then 1 else 0) +
  (if s.selectedRow.isSome then 1 else 0) +
  (if s.selectedColumn.isSome then 1 else 0) +
  (if s.isAllSelected then 1 else 0)

/-- `isSelectable` of `DayCell`: only `current` cells with positive hours in
the selected category react to clicks. -/
def isSelectable (d : DayData) (stat : StatType) : Bool :=
  d.type == CellType.current && decide (0 < d.hours.get stat)

/-- The click gate of `DayCell`: the event emitted by clicking the cell, if
any (`isSelectable && day !== undefined`). -/
def dayCellClick (d : DayData) (weekIndex : ℕ) (stat : StatType) :
    Option SelectionEvent :=
  match d.day with
  | some day =>
    if isSelectable d stat then some (.dayClick day d.type weekIndex) else none
  | none => none

/-! ## Claim C5 -/

/-- Every selection field cleared. -/
def clearedAll (s : CalState) : Prop :=
  s.selectedDay = none ∧ s.selectedRow = none ∧ s.selectedColumn = none
    ∧ s.isAllSelected = false

/-- C5: after any single selection event, at most one of `selectedDay`,
`selectedRow`, `selectedColumn`, `isAllSelected` is active — every handler
clears the other fields — and month navigation and category switching clear
all four. -/
theorem claim_C5_selection (s : CalState) (e : SelectionEvent) (inc : ℤ)
    (t : StatType) :
    activeCount (step s e) ≤ 1
    ∧ clearedAll (step s (.monthChange inc))
    ∧ clearedAll (step s (.statTypeChange t)) := by
  refine ⟨?_, ?_, ?_⟩
  · cases e with
    | dayClick day ty wk =>
      simp [step, handleDayClick, activeCount]
    | columnSelect i =>
      by_cases h : i = 7 <;> simp [step, handleColumnSelect, activeCount, h]
    | rowSelect i =>
      simp [step, handleRowSelect, activeCount]
    | monthChange inc2 =>
      simp [step, handleMonthChange, activeCount]
    | statTypeChange t2 =>
      simp [step, handleStatTypeChange, activeCount]
  · exact ⟨rfl, rfl, rfl, rfl⟩
  · exact ⟨rfl, rfl, rfl, rfl⟩

/-! ## Claim C3 -/

/-- `find?` returns the stored holiday itself when the shifted dates are
pairwise distinct. -/
theorem find?_holiday_of_nodup :
    ∀ (l : List Holiday) (h : Holiday), h ∈ l →
      (l.map (fun x => nextDay x.date)).Nodup →
      l.find? (fun x => nextDay x.date == nextDay h.date) = some h := by
  intro l
  induction l with
  | nil => intro h hmem; cases hmem
  | cons a as ih =>
    intro h hmem hnd
    rw [List.map_cons, List.nodup_cons] at hnd
    obtain ⟨hna, hnd'⟩ := hnd
    rcases List.mem_cons.mp hmem with rfl | hmem'
    · rw [List.find?_cons_of_pos _ (by simp)]
    · have hne : (nextDay a.date == nextDay h.date) = false := by
        simp only [beq_eq_false_iff_ne, ne_eq]
        intro hcon
        exact hna (hcon ▸ List.mem_map_of_mem (fun x => nextDay x.date) hmem')
      rw [List.find?_cons]
      simp only [hne]
      exact ih h hmem' hnd'

/-- C3: a grid cell is marked as a holiday exactly when some stored holiday
date, shifted forward by one calendar day, equals the cell's date; and
(provided the shifted holiday dates are distinct, so "that holiday" is
well defined) the cell for the day after a stored holiday `h` carries
exactly `h`'s reason. -/
theorem claim_C3_holiday_shift (ts : Timesheet) (d : CivilDate) (h : Holiday)
    (ty : CellType) :
    ((isHoliday ts d).isSome ↔ ∃ hh ∈ ts.holidays, nextDay hh.date = d)
    ∧ ((mkCell ts ty d).isHoliday = true ↔ ∃ hh ∈ ts.holidays, nextDay hh.date = d)
    ∧ (h ∈ ts.holidays →
        (ts.holidays.map (fun x => nextDay x.date)).Nodup →
        isHoliday ts (nextDay h.date) = some h
        ∧ (mkCell ts ty (nextDay h.date)).isHoliday = true
        ∧ (mkCell ts ty (nextDay h.date)).holidayReason = some h.reason) := by
  have hiff : (isHoliday ts d).isSome ↔ ∃ hh ∈ ts.holidays, nextDay hh.date = d := by
    rw [isHoliday, List.find?_isSome]
    constructor
    · rintro ⟨x, hx, hpx⟩
      exact ⟨x, hx, by simpa using hpx⟩
    · rintro ⟨x, hx, hpx⟩
      exact ⟨x, hx, by simpa using hpx⟩
  refine ⟨hiff, ?_, ?_⟩
  · show ((isHoliday ts d).isSome = true) ↔ _
    exact hiff
  · intro hmem hnd
    have hfind : isHoliday ts (nextDay h.date) = some h :=
      find?_holiday_of_nodup ts.holidays h hmem hnd
    refine ⟨hfind, ?_, ?_⟩
    · show (isHoliday ts (nextDay h.date)).isSome = true
      rw [hfind]
      rfl
    · show (isHoliday ts (nextDay h.date)).map Holiday.reason = some h.reason
      rw [hfind]
      rfl

/-- A timesheet holding one holiday stored as 2024-03-14 (0-based month 2). -/
def tsH : Timesheet := ⟨[], [⟨⟨2024, 2, 14⟩, "Ides"⟩]⟩

/-- Witness for C3: the stored holiday 2024-03-14 marks the cell of
2024-03-15, carrying its reason. -/
theorem claim_C3_holiday_shift_witness :
    isHoliday tsH ⟨2024, 2, 15⟩ = some ⟨⟨2024, 2, 14⟩, "Ides"⟩
    ∧ (mkCell tsH .current ⟨2024, 2, 15⟩).isHoliday = true
    ∧ (mkCell tsH .current ⟨2024, 2, 15⟩).holidayReason = some "Ides" := by
  have h := (claim_C3_holiday_shift tsH ⟨2024, 2, 15⟩ ⟨⟨2024, 2, 14⟩, "Ides"⟩
    .current).2.2 (by decide) (by decide)
  have e : nextDay (⟨2024, 2, 14⟩ : CivilDate) = ⟨2024, 2, 15⟩ := by decide
  rw [e] at h
  exact h

/-! ## Claim C9 -/

/-- A timesheet whose only entry is dated 2020-01-01, far outside any grid
displayed for March 2024. -/
def tsC9 : Timesheet := ⟨[⟨⟨2020, 0, 1⟩, some 8, none, none, none⟩], []⟩

set_option maxRecDepth 4000 in
/-- C9 counterexample: `consulting` is offered as selectable although its
monthly total across the displayed March-2024 grid is zero — the
availability filter sums the whole `byDate` list, not the displayed grid. -/
theorem claim_C9_counterexample :
    StatType.consulting ∈ availableStatTypes tsC9
    ∧ (currentHoursSum (allDays tsC9 2024 2)).consulting = 0
    ∧ (columnTotals tsC9 2024 2).get? 7 = some ⟨0, 0, 0, 0⟩ := by
  refine ⟨by with_unfolding_all decide, by with_unfolding_all decide,
    by with_unfolding_all decide⟩

/-- C9 amended: a category is offered as selectable exactly when its total
over all `byDate` entries of the timesheet (not the displayed grid) is
positive; and whenever the selected category is not among the available
ones while at least one is available, the first available category is
substituted (in particular the substituted selection is itself
available). -/
theorem claim_C9_amended (ts : Timesheet) (sel : StatType) :
    (∀ t, t ∈ availableStatTypes ts ↔ 0 < (totalHours ts).get t)
    ∧ (sel ∈ availableStatTypes ts → effectiveStatType ts sel = sel)
    ∧ (sel ∉ availableStatTypes ts → availableStatTypes ts ≠ [] →
        effectiveStatType ts sel = (availableStatTypes ts).headD sel
        ∧ effectiveStatType ts sel ∈ availableStatTypes ts) := by
  refine ⟨?_, ?_, ?_⟩
  · intro t
    rw [availableStatTypes, List.mem_filter]
    cases t <;> simp
  · intro hmem
    rw [effectiveStatType]
    simp [hmem]
  · intro hnot hne
    have heff : effectiveStatType ts sel = (availableStatTypes ts).headD sel := by
      rw [effectiveStatType]
      simp [hnot, hne]
    refine ⟨heff, ?_⟩
    rw [heff]
    rcases havail : availableStatTypes ts with _ | ⟨a, as⟩
    · exact absurd havail hne
    · simp [List.headD]

/-- Witness for the amended C9: with the March-2024 timesheet `ts0` only
`consulting` is available, and selecting `internal` substitutes it. -/
theorem claim_C9_amended_witness :
    (StatType.consulting ∈ availableStatTypes tsC9 ↔
      0 < (totalHours tsC9).get StatType.consulting)
    ∧ (effectiveStatType tsC9 .internal = (availableStatTypes tsC9).headD .internal
       ∧ effectiveStatType tsC9 .internal ∈ availableStatTypes tsC9) := by
  have h := claim_C9_amended tsC9 .internal
  exact ⟨h.1 .consulting,
    h.2.2 (by with_unfolding_all decide) (by with_unfolding_all decide)⟩

/-! ## Claim C4 -/

/-- The kind and day-of-month of a cell. -/
def cellView (c : DayData) : CellType × Option ℤ := (c.type, c.day)

theorem sNat_lt_seven (y m : ℤ) : sNat y m < 7 := by
  have h1 : 0 ≤ startingDayOfWeek y m :=
    Int.emod_nonneg _ (by omega)
  have h2 : startingDayOfWeek y m < 7 :=
    Int.emod_lt_of_pos _ (by omega)
  rw [sNat]
  omega

theorem daysInMonth_bounds (y m : ℤ) :
    28 ≤ daysInMonth y m ∧ daysInMonth y m ≤ 31 := by
  rw [daysInMonth]
  split_ifs <;> omega

theorem dimNat_bounds (y m : ℤ) : 28 ≤ dimNat y m ∧ dimNat y m ≤ 31 := by
  have h := daysInMonth_bounds y m
  rw [dimNat]
  omega

theorem dimNat_cast (y m : ℤ) : (dimNat y m : ℤ) = daysInMonth y m := by
  have h := daysInMonth_bounds y m
  rw [dimNat]
  omega

theorem grid_lengths (ts : Timesheet) (y m : ℤ) :
    (previousMonthDays ts y m).length = sNat y m
    ∧ (currentMonthDays ts y m).length = dimNat y m
    ∧ (nextMonthDays ts y m).length =
        weeksNeeded y m * 7 - (sNat y m + dimNat y m)
    ∧ sNat y m + dimNat y m ≤ weeksNeeded y m * 7
    ∧ (allDays ts y m).length = weeksNeeded y m * 7 := by
  have h1 : (previousMonthDays ts y m).length = sNat y m := by
    rw [previousMonthDays, List.length_reverse, List.length_map,
      List.length_range]
  have h2 : (currentMonthDays ts y m).length = dimNat y m := by
    rw [currentMonthDays, List.length_map, List.length_range]
  have h3 : (nextMonthDays ts y m).length =
      weeksNeeded y m * 7 - (sNat y m + dimNat y m) := by
    rw [nextMonthDays, List.length_map, List.length_range, totalCells]
  have h4 : sNat y m + dimNat y m ≤ weeksNeeded y m * 7 := by
    rw [weeksNeeded]
    omega
  refine ⟨h1, h2, h3, h4, ?_⟩
  rw [allDays, List.length_append, List.length_append, h1, h2, h3]
  omega

theorem allDays_get_prev (ts : Timesheet) (y m : ℤ) (j : ℕ)
    (hj : j < sNat y m) :
    (allDays ts y m).get? j =
      some (mkCell ts .prev (prevDate y m (sNat y m - 1 - j))) := by
  obtain ⟨h1, h2, _, _, _⟩ := grid_lengths ts y m
  have h12 : (previousMonthDays ts y m ++ currentMonthDays ts y m).length =
      sNat y m + dimNat y m := by
    rw [List.length_append, h1, h2]
  rw [List.get?_eq_getElem?, allDays,
    List.getElem?_append_left (by rw [h12]; omega),
    List.getElem?_append_left (by rw [h1]; exact hj)]
  rw [previousMonthDays]
  have hrange : j < ((List.range (sNat y m)).map
      (fun i => mkCell ts .prev (prevDate y m i))).length := by
    simpa using hj
  rw [List.getElem?_reverse hrange, List.getElem?_map]
  have hlen : ((List.range (sNat y m)).map
      (fun i => mkCell ts .prev (prevDate y m i))).length = sNat y m := by
    simp
  rw [hlen, List.getElem?_range (by omega)]
  rfl

theorem allDays_get_current (ts : Timesheet) (y m : ℤ) (j : ℕ)
    (hj : j < dimNat y m) :
    (allDays ts y m).get? (sNat y m + j) =
      some (mkCell ts .current ⟨y, m, (j : ℤ) + 1⟩) := by
  obtain ⟨h1, h2, _, _, _⟩ := grid_lengths ts y m
  have h12 : (previousMonthDays ts y m ++ currentMonthDays ts y m).length =
      sNat y m + dimNat y m := by
    rw [List.length_append, h1, h2]
  rw [List.get?_eq_getElem?, allDays,
    List.getElem?_append_left (by rw [h12]; omega),
    List.getElem?_append_right (by rw [h1]; omega), h1]
  have hsub : sNat y m + j - sNat y m = j := by omega
  rw [hsub, currentMonthDays, List.getElem?_map, List.getElem?_range hj]
  rfl

theorem allDays_get_next (ts : Timesheet) (y m : ℤ) (j : ℕ)
    (hj1 : sNat y m + dimNat y m ≤ j) (hj2 : j < weeksNeeded y m * 7) :
    (allDays ts y m).get? j =
      some (mkCell ts .next (nextDate y m (j - (sNat y m + dimNat y m)))) := by
  obtain ⟨h1, h2, h3, _, _⟩ := grid_lengths ts y m
  have h12 : (previousMonthDays ts y m ++ currentMonthDays ts y m).length =
      sNat y m + dimNat y m := by
    rw [List.length_append, h1, h2]
  rw [List.get?_eq_getElem?, allDays,
    List.getElem?_append_right (by rw [h12]; omega), h12, nextMonthDays,
    List.getElem?_map]
  rw [List.getElem?_range (by rw [totalCells]; omega)]
  rfl

/-- C4: the grid consists of exactly `weeksNeeded * 7` day cells with
`weeksNeeded = ceil((startingWeekday + daysInMonth)/7)`: the first
`startingWeekday` cells are the trailing days of the previous month in
ascending order, the next `daysInMonth` cells are the current month's days
`1..daysInMonth`, the remaining cells are the leading days of the next
month, and the first and the last row of the grid each contain a
current-month cell (at offsets `startingWeekday` and
`startingWeekday + daysInMonth - 1` respectively). -/
theorem claim_C4_grid (ts : Timesheet) (y m : ℤ) :
    (allDays ts y m).length = weeksNeeded y m * 7
    ∧ (∀ j, j < sNat y m →
        ((allDays ts y m).get? j).map cellView =
          some (CellType.prev,
            some (daysInMonth (prevMonthYear y m).1 (prevMonthYear y m).2
              - (sNat y m : ℤ) + 1 + (j : ℤ))))
    ∧ (∀ j, j < dimNat y m →
        ((allDays ts y m).get? (sNat y m + j)).map cellView =
          some (CellType.current, some ((j : ℤ) + 1)))
    ∧ (∀ j, sNat y m + dimNat y m ≤ j → j < weeksNeeded y m * 7 →
        ((allDays ts y m).get? j).map cellView =
          some (CellType.next,
            some ((j : ℤ) - (sNat y m : ℤ) - (dimNat y m : ℤ) + 1)))
    ∧ (sNat y m < 7 ∧
        ((allDays ts y m).get? (sNat y m)).map cellView =
          some (CellType.current, some 1))
    ∧ ((weeksNeeded y m - 1) * 7 ≤ sNat y m + dimNat y m - 1
        ∧ sNat y m + dimNat y m - 1 < weeksNeeded y m * 7
        ∧ ((allDays ts y m).get? (sNat y m + dimNat y m - 1)).map cellView =
            some (CellType.current, some (dimNat y m : ℤ))) := by
  obtain ⟨hl1, hl2, hl3, hl4, hl5⟩ := grid_lengths ts y m
  have hdim := dimNat_bounds y m
  have hs7 := sNat_lt_seven y m
  have hcur : ∀ j, j < dimNat y m →
      ((allDays ts y m).get? (sNat y m + j)).map cellView =
        some (CellType.current, some ((j : ℤ) + 1)) := by
    intro j hj
    rw [allDays_get_current ts y m j hj]
    rfl
  refine ⟨hl5, ?_, hcur, ?_, ⟨hs7, ?_⟩, ?_, ?_, ?_⟩
  · intro j hj
    rw [allDays_get_prev ts y m j hj]
    show some (CellType.prev,
      some (daysInMonth (prevMonthYear y m).1 (prevMonthYear y m).2
        - ((sNat y m - 1 - j : ℕ) : ℤ))) = _
    have : ((sNat y m - 1 - j : ℕ) : ℤ) = (sNat y m : ℤ) - 1 - (j : ℤ) := by
      omega
    rw [this]
    have harith : daysInMonth (prevMonthYear y m).1 (prevMonthYear y m).2
        - ((sNat y m : ℤ) - 1 - (j : ℤ)) =
        daysInMonth (prevMonthYear y m).1 (prevMonthYear y m).2
          - (sNat y m : ℤ) + 1 + (j : ℤ) := by ring
    rw [harith]
  · intro j hj1 hj2
    rw [allDays_get_next ts y m j hj1 hj2]
    show some (CellType.next,
      some (((j - (sNat y m + dimNat y m) : ℕ) : ℤ) + 1)) = _
    have : ((j - (sNat y m + dimNat y m) : ℕ) : ℤ) =
        (j : ℤ) - (sNat y m : ℤ) - (dimNat y m : ℤ) := by omega
    rw [this]
  · have h := hcur 0 (by omega)
    rw [Nat.add_zero] at h
    simp only [Nat.cast_zero, zero_add] at h
    exact h
  · rw [weeksNeeded]
    omega
  · rw [weeksNeeded]
    omega
  · have h := hcur (dimNat y m - 1) (by omega)
    have : sNat y m + (dimNat y m - 1) = sNat y m + dimNat y m - 1 := by omega
    rw [this] at h
    rw [h]
    have : ((dimNat y m - 1 : ℕ) : ℤ) + 1 = (dimNat y m : ℤ) := by omega
    rw [this]

/-- Witness for C4 at March 2024 (starting weekday 5, 31 days, 6 weeks). -/
theorem claim_C4_grid_witness :
    (allDays tsH 2024 2).length = weeksNeeded 2024 2 * 7
    ∧ ((allDays tsH 2024 2).get? 0).map cellView =
        some (CellType.prev,
          some (daysInMonth (prevMonthYear 2024 2).1 (prevMonthYear 2024 2).2
            - (sNat 2024 2 : ℤ) + 1 + (0 : ℤ)))
    ∧ ((allDays tsH 2024 2).get? (sNat 2024 2 + 14)).map cellView =
        some (CellType.current, some ((14 : ℤ) + 1))
    ∧ ((allDays tsH 2024 2).get? 41).map cellView =
        some (CellType.next,
          some ((41 : ℤ) - (sNat 2024 2 : ℤ) - (dimNat 2024 2 : ℤ) + 1)) := by
  have h := claim_C4_grid tsH 2024 2
  exact ⟨h.1, h.2.1 0 (by decide), h.2.2.1 14 (by decide),
    h.2.2.2.1 41 (by decide) (by decide)⟩

/-! ## Claim C2 -/

theorem weekTotal_go (cells : List DayData) : ∀ acc : Hours,
    cells.foldl (fun acc c => if c.type = .current then acc + c.hours else acc)
        acc =
      acc + currentHoursSum cells := by
  induction cells with
  | nil =>
    intro acc
    simp [currentHoursSum]
  | cons c cs ih =>
    intro acc
    rw [List.foldl_cons, ih]
    by_cases hc : c.type = CellType.current
    · simp [currentHoursSum, List.filter_cons, hc, add_assoc]
    · simp [currentHoursSum, List.filter_cons, hc]

theorem weekTotalHours_eq (cells : List DayData) :
    weekTotalHours cells = currentHoursSum cells := by
  rw [weekTotalHours, weekTotal_go]
  rw [show (⟨0, 0, 0, 0⟩ : Hours) = 0 from rfl, zero_add]

theorem currentHoursSum_append (a b : List DayData) :
    currentHoursSum (a ++ b) = currentHoursSum a + currentHoursSum b := by
  rw [currentHoursSum, currentHoursSum, currentHoursSum, List.filter_append,
    List.map_append, List.sum_append]

theorem sum_week_chunks : ∀ (n : ℕ) (l : List DayData), l.length = n * 7 →
    ((List.range n).map
        (fun w => currentHoursSum ((l.drop (w * 7)).take 7))).sum =
      currentHoursSum l := by
  intro n
  induction n with
  | zero =>
    intro l hl
    rw [Nat.zero_mul] at hl
    rw [List.length_eq_zero.mp hl]
    simp [currentHoursSum]
  | succ n ih =>
    intro l hl
    rw [List.range_succ_eq_map, List.map_cons, List.sum_cons, List.map_map]
    have hfun : ((fun w => currentHoursSum ((l.drop (w * 7)).take 7)) ∘
          Nat.succ) =
        fun w => currentHoursSum (((l.drop 7).drop (w * 7)).take 7) := by
      funext w
      show currentHoursSum ((l.drop ((w + 1) * 7)).take 7) = _
      rw [List.drop_drop]
      have : 7 + w * 7 = (w + 1) * 7 := by ring
      rw [this]
    rw [hfun, ih (l.drop 7) (by rw [List.length_drop]; omega)]
    show currentHoursSum ((l.drop 0).take 7) + _ = _
    rw [List.drop_zero, ← currentHoursSum_append, List.take_append_drop]

theorem rows_get (ts : Timesheet) (y m : ℤ) (w : ℕ)
    (hw : w < weeksNeeded y m) :
    (rows ts y m).get? w =
      some ((((allDays ts y m).drop (w * 7)).take 7) ++
        [totalCellOf (((allDays ts y m).drop (w * 7)).take 7)]) := by
  rw [rows, List.get?_eq_getElem?, List.getElem?_map, List.getElem?_range hw]
  rfl

theorem weekCells_length (ts : Timesheet) (y m : ℤ) (w : ℕ)
    (hw : w < weeksNeeded y m) :
    (((allDays ts y m).drop (w * 7)).take 7).length = 7 := by
  obtain ⟨_, _, _, _, hl5⟩ := grid_lengths ts y m
  rw [List.length_take, List.length_drop, hl5]
  omega

theorem rows_shape (ts : Timesheet) (y m : ℤ) :
    ∀ week ∈ rows ts y m,
      ∃ cells, cells.length = 7 ∧ week = cells ++ [totalCellOf cells] := by
  intro week hweek
  rw [rows] at hweek
  obtain ⟨w, hwmem, rfl⟩ := List.mem_map.mp hweek
  rw [List.mem_range] at hwmem
  exact ⟨((allDays ts y m).drop (w * 7)).take 7,
    weekCells_length ts y m w hwmem, rfl⟩

theorem colFold_get7 :
    ∀ (ws : List (List DayData)) (acc : List Hours) (a : Hours),
      (∀ week ∈ ws, ∃ cells, cells.length = 7 ∧
          week = cells ++ [totalCellOf cells]) →
      acc[7]? = some a →
      (ws.foldl
          (fun acc week =>
            List.zipWith
              (fun tot c =>
                if c.type = .current ∨ c.type = .total then tot + c.hours
                else tot)
              acc week)
          acc)[7]? =
        some (a + (ws.map (fun week => currentHoursSum (week.take 7))).sum) := by
  intro ws
  induction ws with
  | nil =>
    intro acc a _ hacc
    rw [List.foldl_nil, hacc, List.map_nil, List.sum_nil, add_zero]
  | cons w ws ih =>
    intro acc a hshape hacc
    obtain ⟨cells, hc7, rfl⟩ := hshape _ (List.mem_cons_self _ _)
    rw [List.foldl_cons]
    have hw7 : (cells ++ [totalCellOf cells])[7]? = some (totalCellOf cells) := by
      rw [List.getElem?_append_right (by omega)]
      rw [hc7]
      rfl
    have hacc' : (List.zipWith
        (fun tot c =>
          if c.type = .current ∨ c.type = .total then tot + c.hours else tot)
        acc (cells ++ [totalCellOf cells]))[7]? = some (a + (totalCellOf cells).hours) := by
      rw [List.getElem?_zipWith, hacc, hw7]
      show some (if (totalCellOf cells).type = CellType.current ∨
          (totalCellOf cells).type = CellType.total then
          a + (totalCellOf cells).hours else a) = _
      rw [if_pos (Or.inr (show (totalCellOf cells).type = CellType.total from
        rfl))]
    rw [ih _ _ (fun week hmem => hshape week (List.mem_cons_of_mem _ hmem)) hacc']
    rw [List.map_cons, List.sum_cons]
    have htake : (cells ++ [totalCellOf cells]).take 7 = cells :=
      List.take_left' hc7
    rw [htake]
    have hhours : (totalCellOf cells).hours = currentHoursSum cells := by
      show weekTotalHours cells = currentHoursSum cells
      exact weekTotalHours_eq cells
    rw [hhours, add_assoc]

/-- C2: each week row's 8th cell is the `total` cell holding, per category,
the sum of the hours of only the `current`-type cells of that row; and the
grand total (the 8th column total) equals the sum of the per-week current
totals, which equals the sum over all `current` cells of the grid. -/
theorem claim_C2_week_totals (ts : Timesheet) (y m : ℤ) :
    (∀ week ∈ rows ts y m, ∀ tc, week.get? 7 = some tc →
      tc.type = CellType.total ∧ tc.hours = currentHoursSum (week.take 7))
    ∧ (∀ g, (columnTotals ts y m).get? 7 = some g →
        g = ((rows ts y m).map (fun week => currentHoursSum (week.take 7))).sum
        ∧ g = currentHoursSum (allDays ts y m)) := by
  constructor
  · intro week hweek tc htc
    obtain ⟨cells, hc7, rfl⟩ := rows_shape ts y m week hweek
    have hw7 : (cells ++ [totalCellOf cells]).get? 7 = some (totalCellOf cells) := by
      rw [List.get?_eq_getElem?, List.getElem?_append_right (by omega), hc7]
      rfl
    rw [hw7] at htc
    obtain rfl := Option.some_inj.mp htc
    refine ⟨rfl, ?_⟩
    rw [List.take_left' hc7]
    show weekTotalHours cells = currentHoursSum cells
    exact weekTotalHours_eq cells
  · intro g hg
    have hsum : ((rows ts y m).map
        (fun week => currentHoursSum (week.take 7))).sum =
        currentHoursSum (allDays ts y m) := by
      have hmapeq : (rows ts y m).map (fun week => currentHoursSum (week.take 7)) =
          (List.range (weeksNeeded y m)).map
            (fun w => currentHoursSum (((allDays ts y m).drop (w * 7)).take 7)) := by
        rw [rows, List.map_map]
        apply List.map_congr_left
        intro w hw
        rw [List.mem_range] at hw
        show currentHoursSum ((_ ++ [_]).take 7) = _
        rw [List.take_left' (weekCells_length ts y m w hw)]
      rw [hmapeq]
      obtain ⟨_, _, _, _, hl5⟩ := grid_lengths ts y m
      exact sum_week_chunks (weeksNeeded y m) (allDays ts y m) (by rw [hl5])
    have hcol : (columnTotals ts y m).get? 7 =
        some (((rows ts y m).map
          (fun week => currentHoursSum (week.take 7))).sum) := by
      rw [columnTotals, List.get?_eq_getElem?]
      have := colFold_get7 (rows ts y m) (List.replicate 8 ⟨0, 0, 0, 0⟩)
        (0 : Hours) (rows_shape ts y m) (by rw [List.getElem?_replicate]; rfl)
      rw [this, zero_add]
    rw [hcol] at hg
    obtain rfl := Option.some_inj.mp hg
    exact ⟨rfl, hsum⟩

/-- The March-2024 timesheet with a single entry: 8 consulting hours on
2024-03-15. -/
def ts0 : Timesheet := ⟨[⟨⟨2024, 2, 15⟩, some 8, none, none, none⟩], []⟩

set_option maxRecDepth 8000 in
/-- Witness for C2 on `ts0` in March 2024: the grand total is 8 consulting
hours and reconciles with the per-week totals and the whole grid. -/
theorem claim_C2_week_totals_witness :
    (⟨8, 0, 0, 0⟩ : Hours) =
      ((rows ts0 2024 2).map (fun week => currentHoursSum (week.take 7))).sum
    ∧ (⟨8, 0, 0, 0⟩ : Hours) = currentHoursSum (allDays ts0 2024 2) :=
  (claim_C2_week_totals ts0 2024 2).2 ⟨8, 0, 0, 0⟩
    (by with_unfolding_all decide)

/-! ## Claim C10 -/

/-- Membership in the grid with type `current` pins the cell down to a
current-month day cell. -/
theorem mem_allDays_current (ts : Timesheet) (y m : ℤ) (cell : DayData)
    (hcell : cell ∈ allDays ts y m) (hty : cell.type = CellType.current) :
    ∃ j : ℕ, j < dimNat y m ∧ cell = mkCell ts .current ⟨y, m, (j : ℤ) + 1⟩ := by
  rw [allDays] at hcell
  rcases List.mem_append.mp hcell with h12 | hnext
  · rcases List.mem_append.mp h12 with hprev | hcur
    · rw [previousMonthDays, List.mem_reverse] at hprev
      obtain ⟨i, _, rfl⟩ := List.mem_map.mp hprev
      cases hty
    · rw [currentMonthDays] at hcur
      obtain ⟨j, hj, rfl⟩ := List.mem_map.mp hcur
      rw [List.mem_range] at hj
      exact ⟨j, hj, rfl⟩
  · rw [nextMonthDays] at hnext
    obtain ⟨i, _, rfl⟩ := List.mem_map.mp hnext
    cases hty

/-- C10: a day cell of the grid emits a click event only when it is a
`current`-month cell (with positive hours in the selected category), so the
`prev` and `next` branches of `handleDayClick` are unreachable from the
rendered grid, and a day click never changes the displayed month: the
resulting selected date keeps the displayed year and month. -/
theorem claim_C10_click_safety (ts : Timesheet) (y m : ℤ) (s : CalState)
    (hm0 : 0 ≤ m) (hm : m < 12)
    (hy : s.selectedDate.year = y) (hsm : s.selectedDate.month = m)
    (cell : DayData) (hcell : cell ∈ allDays ts y m)
    (wk : ℕ) (stat : StatType) (e : SelectionEvent)
    (he : dayCellClick cell wk stat = some e) :
    cell.type = CellType.current
    ∧ e = SelectionEvent.dayClick (cell.day.getD 0) CellType.current wk
    ∧ 1 ≤ cell.day.getD 0 ∧ cell.day.getD 0 ≤ daysInMonth y m
    ∧ (step s e).selectedDate.year = y
    ∧ (step s e).selectedDate.month = m := by
  rw [dayCellClick] at he
  rcases hday : cell.day with _ | day
  · rw [hday] at he
    simp at he
  · rw [hday] at he
    have he' : (if isSelectable cell stat = true then
        some (SelectionEvent.dayClick day cell.type wk) else none) = some e := he
    by_cases hsel : isSelectable cell stat = true
    · rw [if_pos hsel] at he'
      have hty : cell.type = CellType.current := by
        rw [isSelectable, Bool.and_eq_true, beq_iff_eq] at hsel
        exact hsel.1
      obtain ⟨j, hj, hcelldef⟩ := mem_allDays_current ts y m cell hcell hty
      have hdayval : day = (j : ℤ) + 1 := by
        rw [hcelldef] at hday
        exact (Option.some_inj.mp hday).symm
      have hd1 : 1 ≤ (some day).getD 0 := by
        show (1 : ℤ) ≤ day
        omega
      have hd2 : (some day).getD 0 ≤ daysInMonth y m := by
        show day ≤ daysInMonth y m
        rw [← dimNat_cast y m]
        omega
      obtain rfl := Option.some_inj.mp he'
      have hstep : (step s (SelectionEvent.dayClick day cell.type wk)).selectedDate =
          normDate s.selectedDate.year s.selectedDate.month day := by
        rw [hty]
        rfl
      have hvalid : normDate y m day = ⟨y, m, day⟩ :=
        normDate_valid y m day hm0 hm hd1 hd2
      refine ⟨hty, ?_, hd1, hd2, ?_, ?_⟩
      · rw [hty]
        rfl
      · rw [hstep, hy, hsm, hvalid]
      · rw [hstep, hy, hsm, hvalid]
    · rw [if_neg hsel] at he'
      simp at he'

/-- The initial UI state for the witness: displaying March 2024. -/
def s0 : CalState := ⟨⟨2024, 2, 1⟩, none, none, none, false, .consulting⟩

set_option maxRecDepth 8000 in
/-- Witness for C10: clicking the 2024-03-15 cell (8 consulting hours)
emits a `current` click and keeps the displayed month. -/
theorem claim_C10_click_safety_witness :
    (mkCell ts0 .current ⟨2024, 2, 15⟩).type = CellType.current
    ∧ SelectionEvent.dayClick 15 CellType.current 2 =
        SelectionEvent.dayClick
          ((mkCell ts0 .current ⟨2024, 2, 15⟩).day.getD 0) CellType.current 2
    ∧ 1 ≤ (mkCell ts0 .current ⟨2024, 2, 15⟩).day.getD 0
    ∧ (mkCell ts0 .current ⟨2024, 2, 15⟩).day.getD 0 ≤ daysInMonth 2024 2
    ∧ (step s0 (SelectionEvent.dayClick 15 CellType.current 2)).selectedDate.year
        = 2024
    ∧ (step s0 (SelectionEvent.dayClick 15 CellType.current 2)).selectedDate.month
        = 2 :=
  claim_C10_click_safety ts0 2024 2 s0 (by decide) (by decide) (by decide)
    (by decide) (mkCell ts0 .current ⟨2024, 2, 15⟩) (by decide) 2 .consulting
    (SelectionEvent.dayClick 15 CellType.current 2) (by decide)

end Omniscope
